import Mathlib

/-!
# Verification of PyTradingTools' streaming numerical core

A shallow embedding, in Lean 4, of the streaming estimators of the
PyTradingTools repository (`pytradingtools/utilities.py`,
`pytradingtools/movingaverage.py`, `pytradingtools/oscillators.py`,
`pytradingtools/indicators.py`), together with theorems settling the
specification's claims about them.

Numeric samples are modelled as rationals (`ℚ`): every arithmetic operation the
embedded code performs (addition, subtraction, multiplication, division by a
nonzero denominator) is exact in `ℚ`, so the embedded functions compute the
exact real values the Python floating-point code approximates.  Python's
`None` becomes `Option`, and a float division whose denominator is zero (which
CPython turns into a `ZeroDivisionError` rather than a finite float) is
modelled by an `Option`-valued division returning `none`.
-/

set_option autoImplicit false

/--
`RollingQueue` (utilities.py): a fixed-size FIFO queue backed by a `deque`,
with a separately tracked `_size`.  `data` lists the queued elements
oldest-first, matching the deque's left-to-right order (`append` on the right,
`popleft` on the left); iterating the queue yields `data` in order.
The Python constructor raises `ValueError` for `capacity < 1`, so all states of
interest have `capacity ≥ 1`.
-/
structure RollingQueue (α : Type) where
  capacity : Nat
  size : Nat
  data : List α

/-- `RollingQueue.__init__`: empty backing deque, size 0. -/
def RollingQueue.init (α : Type) (capacity : Nat) : RollingQueue α :=
  { capacity := capacity, size := 0, data := [] }

/-- `isEmpty(self)`: `self._size == 0`. -/
def RollingQueue.isEmpty {α : Type} (q : RollingQueue α) : Bool :=
  q.size == 0

/-- `atCapacity(self)`: `self.size == self._capacity`. -/
def RollingQueue.atCapacity {α : Type} (q : RollingQueue α) : Bool :=
  q.size == q.capacity

/-- `peek(self)`: front of the deque (`self.data[0]`) when nonempty, else `None`. -/
def RollingQueue.peek {α : Type} (q : RollingQueue α) : Option α :=
  if q.isEmpty then none else q.data.head?

/--
`enqueue(self, value)`: when at capacity, pop the oldest element from the left
and return it; otherwise grow.  The new value is appended on the right.
Returns `(removed, new queue)`.
-/
def RollingQueue.enqueue {α : Type} (q : RollingQueue α) (value : α) : Option α × RollingQueue α :=
  if q.size == q.capacity then
    (q.data.head?, { q with data := q.data.tail ++ [value] })
  else
    (none, { q with size := q.size + 1, data := q.data ++ [value] })

/--
`dequeue(self)`: raises `ValueError` when empty (modelled as `none`), else
removes and returns the front element.  The inner `[] => none` arm is
unreachable for states satisfying the size/data invariant.
-/
def RollingQueue.dequeue {α : Type} (q : RollingQueue α) : Option (α × RollingQueue α) :=
  if q.isEmpty then none
  else
    match q.data with
    | [] => none
    | x :: xs => some (x, { q with size := q.size - 1, data := xs })

/-- Enqueue a whole stream, one value at a time, discarding the evicted returns. -/
def RollingQueue.enqueueAll {α : Type} (q : RollingQueue α) (vs : List α) : RollingQueue α :=
  vs.foldl (fun q v => (q.enqueue v).2) q

/-- States of a `RollingQueue` reachable from a fresh `RollingQueue(C)` by `enqueue`/`dequeue`. -/
inductive RollingQueue.Reachable {α : Type} (C : Nat) : RollingQueue α → Prop where
  | init : RollingQueue.Reachable C (RollingQueue.init α C)
  | enqueue {q : RollingQueue α} (v : α) :
      RollingQueue.Reachable C q → RollingQueue.Reachable C (q.enqueue v).2
  | dequeue {q q' : RollingQueue α} {x : α} :
      RollingQueue.Reachable C q → q.dequeue = some (x, q') → RollingQueue.Reachable C q'

/--
`SimpleMovingAverage` (movingaverage.py): equal-weight windowed average.
Fields mirror `_recip_capacity = 1.0/period`, `_average`, `_queue`.
-/
structure SimpleMovingAverage where
  recip_capacity : ℚ
  average : ℚ
  queue : RollingQueue ℚ

/-- `SimpleMovingAverage.__init__(period)` (raises for non-integral or `< 1` periods). -/
def SimpleMovingAverage.init (period : Nat) : SimpleMovingAverage :=
  { recip_capacity := 1 / (period : ℚ), average := 0, queue := RollingQueue.init ℚ period }

/--
`SimpleMovingAverage.update(value)`: peek the front value (the one about to
roll off); when the queue is still empty, seed `average = value` and use
`value` itself as the front; enqueue; then shift the average by
`(value - front) / period`.
-/
def SimpleMovingAverage.update (s : SimpleMovingAverage) (value : ℚ) : SimpleMovingAverage :=
  let frontValue := if s.queue.isEmpty then value else (s.queue.peek).getD value
  let average0 := if s.queue.isEmpty then value else s.average
  { recip_capacity := s.recip_capacity
    average := average0 - frontValue * s.recip_capacity + value * s.recip_capacity
    queue := (s.queue.enqueue value).2 }

/-- `SimpleMovingAverage.period`: the queue's capacity. -/
def SimpleMovingAverage.period (s : SimpleMovingAverage) : Nat :=
  s.queue.capacity

/--
Modelled from the spec: the `isaccurate` property of `SimpleMovingAverage` is
missing from `src/pytradingtools/movingaverage.py` — only its caller
(`RelativeStrengthIndex.update` in oscillators.py) is present in the sources.
The spec defines it as "`isaccurate` = queue.atCapacity()".
-/
def SimpleMovingAverage.isaccurate (s : SimpleMovingAverage) : Bool :=
  s.queue.atCapacity

/-- Feed a whole input stream into a `SimpleMovingAverage`, one update per value. -/
def SimpleMovingAverage.updateAll (s : SimpleMovingAverage) (vs : List ℚ) : SimpleMovingAverage :=
  vs.foldl SimpleMovingAverage.update s

/--
`ExponentialMovingAverage` (movingaverage.py): `_average` starts as `None`
(`averageOpt := none`); `_multiplier = smoothing / (period + 1)`.
-/
structure ExponentialMovingAverage where
  averageOpt : Option ℚ
  period : Nat
  smoothing : ℚ
  multiplier : ℚ

/-- `ExponentialMovingAverage.__init__(period, smoothing=2.0)`. -/
def ExponentialMovingAverage.init (period : Nat) (smoothing : ℚ) : ExponentialMovingAverage :=
  { averageOpt := none, period := period, smoothing := smoothing
    multiplier := smoothing / ((period : ℚ) + 1) }

/--
`ExponentialMovingAverage.update(value)`: if `_average is None` set it to
`value` first; then `_average = (value - _average) * _multiplier + _average`.
-/
def ExponentialMovingAverage.update (e : ExponentialMovingAverage) (value : ℚ) :
    ExponentialMovingAverage :=
  let a := e.averageOpt.getD value
  { e with averageOpt := some ((value - a) * e.multiplier + a) }

/-- `ExponentialMovingAverage.average`: `_average` when set, else `0.0`. -/
def ExponentialMovingAverage.average (e : ExponentialMovingAverage) : ℚ :=
  e.averageOpt.getD 0

/-- Feed a whole input stream into an `ExponentialMovingAverage`. -/
def ExponentialMovingAverage.updateAll (e : ExponentialMovingAverage) (vs : List ℚ) :
    ExponentialMovingAverage :=
  vs.foldl ExponentialMovingAverage.update e

/--
Modelled from the spec: `SmoothedMovingAverage` is imported by
`src/pytradingtools/oscillators.py` and exercised by
`src/test/test_movingaverage.py`, but its definition is missing from
`src/pytradingtools/movingaverage.py`.  The spec: "an ExponentialMovingAverage
with multiplier fixed at `1/period` (classic Wilder smoothing) ... construct by
overriding the multiplier after delegating to the exponential constructor";
the test pins `smoothing = 1.0`.
-/
def SmoothedMovingAverage.init (period : Nat) : ExponentialMovingAverage :=
  { ExponentialMovingAverage.init period 1 with multiplier := 1 / (period : ℚ) }

/--
The recursion the spec attributes to a `SmoothedMovingAverage` once seeded:
starting from average `a`, each update performs `average += (value - average) / period`.
Stated from the claim's words, for comparison with the delegating construction.
-/
def wilderRecursion (period : Nat) : ℚ → List ℚ → ℚ
  | a, [] => a
  | a, x :: xs => wilderRecursion period (a + (x - a) / (period : ℚ)) xs

/--
`RunningStats` (utilities.py): Welford's online mean/variance.
Fields mirror `_n`, `_oldMean`, `_newMean`, `_oldSum`, `_newSum`.
-/
structure RunningStats where
  n : Nat
  oldMean : ℚ
  newMean : ℚ
  oldSum : ℚ
  newSum : ℚ

/-- `RunningStats.__init__`. -/
def RunningStats.init : RunningStats :=
  { n := 0, oldMean := 0, newMean := 0, oldSum := 0, newSum := 0 }

/-- `RunningStats.clear()`: resets only `_n`; the four accumulators stay stale. -/
def RunningStats.clear (r : RunningStats) : RunningStats :=
  { r with n := 0 }

/-- `RunningStats.push(value)`. -/
def RunningStats.push (r : RunningStats) (value : ℚ) : RunningStats :=
  let n := r.n + 1
  if n = 1 then
    { r with n := n, oldMean := value, newMean := value, oldSum := 0 }
  else
    let newMean := r.oldMean + (value - r.oldMean) / (n : ℚ)
    let newSum := r.oldSum + (value - r.oldMean) * (value - newMean)
    { n := n, oldMean := newMean, newMean := newMean, oldSum := newSum, newSum := newSum }

/-- `RunningStats.mean`: `_newMean` when `n > 0`, else `0.0`. -/
def RunningStats.mean (r : RunningStats) : ℚ :=
  if r.n > 0 then r.newMean else 0

/-- `RunningStats.variance`: Bessel-corrected `_newSum / (n - 1)` when `n > 1`, else `0.0`. -/
def RunningStats.variance (r : RunningStats) : ℚ :=
  if r.n > 1 then r.newSum / ((r.n : ℚ) - 1) else 0

/-- Push a whole input stream into a `RunningStats`. -/
def RunningStats.pushAll (r : RunningStats) (vs : List ℚ) : RunningStats :=
  vs.foldl RunningStats.push r

/--
`RollingStats` (utilities.py): fixed-window mean/variance.  Fields mirror
`_queue`, `_varS`, `_mean`, `_recip_size = 1/period`, `_bessel_recip = 1/(period-1)`.
-/
structure RollingStats where
  queue : RollingQueue ℚ
  varS : ℚ
  mean : ℚ
  recip_size : ℚ
  bessel_recip : ℚ

/-- `RollingStats.__init__(period)`. -/
def RollingStats.init (period : Nat) : RollingStats :=
  { queue := RollingQueue.init ℚ period, varS := 0, mean := 0
    recip_size := 1 / (period : ℚ), bessel_recip := 1 / ((period : ℚ) - 1) }

/--
`RollingStats.push(value)`: peek the front (or seed with `value` when empty),
enqueue, shift the mean by `(value - front)/period`, and add
`(value + front - old_mean - new_mean) * (value - front)` to the variance sum.
-/
def RollingStats.push (s : RollingStats) (value : ℚ) : RollingStats :=
  let frontVal := if s.queue.isEmpty then value else (s.queue.peek).getD value
  let old_mean := if s.queue.isEmpty then value else s.mean
  let new_mean := old_mean - frontVal * s.recip_size + value * s.recip_size
  { queue := (s.queue.enqueue value).2
    varS := s.varS + (value + frontVal - old_mean - new_mean) * (value - frontVal)
    mean := new_mean
    recip_size := s.recip_size
    bessel_recip := s.bessel_recip }

/-- `RollingStats.variance`: `_varS * _bessel_recip`. -/
def RollingStats.variance (s : RollingStats) : ℚ :=
  s.varS * s.bessel_recip

/-- `RollingStats.isaccurate`: `_queue.atCapacity()`. -/
def RollingStats.isaccurate (s : RollingStats) : Bool :=
  s.queue.atCapacity

/-- Push a whole input stream into a `RollingStats`. -/
def RollingStats.pushAll (s : RollingStats) (vs : List ℚ) : RollingStats :=
  vs.foldl RollingStats.push s

/--
The up/down tracker slot of `RelativeStrengthIndex`: starts life as a
`SimpleMovingAverage` and is replaced mid-stream by a `SmoothedMovingAverage`
(an `ExponentialMovingAverage` value) at the warm-up handoff.
-/
inductive MovingAverageSlot where
  | sma (s : SimpleMovingAverage)
  | smma (e : ExponentialMovingAverage)

/-- Polymorphic `update` dispatch on the slot's current implementation. -/
def MovingAverageSlot.update : MovingAverageSlot → ℚ → MovingAverageSlot
  | .sma s, v => .sma (s.update v)
  | .smma e, v => .smma (e.update v)

/-- Polymorphic `average` dispatch on the slot's current implementation. -/
def MovingAverageSlot.average : MovingAverageSlot → ℚ
  | .sma s => s.average
  | .smma e => e.average

/--
Polymorphic `isaccurate` dispatch.  After the handoff the RSI's own
`_isaccurate` flag short-circuits the guard, so the smma arm is never
consulted; per the spec the flag "flips true ... and never reverts".
-/
def MovingAverageSlot.isaccurate : MovingAverageSlot → Bool
  | .sma s => s.isaccurate
  | .smma _ => true

/-- `OscillatorSignal` (oscillators.py). -/
inductive OscillatorSignal where
  | overbought
  | oversold
  | nothing
deriving DecidableEq

/--
`RelativeStrengthIndex` (oscillators.py).  Fields mirror `_period`,
`_lastPrice` (`None` initially), `_up`, `_down`, `_rs`, `_rsi`, `_isaccurate`,
`_oversold`, `_overbought`.
-/
structure RelativeStrengthIndex where
  period : Nat
  lastPrice : Option ℚ
  up : MovingAverageSlot
  down : MovingAverageSlot
  rs : ℚ
  rsi : ℚ
  isaccurate : Bool
  oversold : ℚ
  overbought : ℚ

/-- `RelativeStrengthIndex.__init__(period, oversold, overbought)`. -/
def RelativeStrengthIndex.init (period : Nat) (oversold overbought : ℚ) :
    RelativeStrengthIndex :=
  { period := period, lastPrice := none
    up := .sma (SimpleMovingAverage.init period)
    down := .sma (SimpleMovingAverage.init period)
    rs := 0, rsi := 0, isaccurate := false
    oversold := oversold, overbought := overbought }

/-- The source's default arguments: `__init__(self, period=14, oversold=30, overbought=30)`. -/
def RelativeStrengthIndex.initDefault : RelativeStrengthIndex :=
  RelativeStrengthIndex.init 14 30 30

/--
`RelativeStrengthIndex.update(value)`: signed delta versus the last price
(seeded to `value` itself on the first call); one-time handoff from SMA to
SMMA trackers the moment the up-tracker reports accurate, seeding each fresh
SMMA with the outgoing average via one update; feed the deltas; then the
guarded `RS`/`RSI` computation with the zero-loss special case `RSI = 100`.
-/
def RelativeStrengthIndex.update (r : RelativeStrengthIndex) (value : ℚ) :
    RelativeStrengthIndex :=
  let lastPrice := r.lastPrice.getD value
  let up : ℚ := if value > lastPrice then value - lastPrice else 0
  let down : ℚ := if value < lastPrice then lastPrice - value else 0
  let handoff := !r.isaccurate && r.up.isaccurate
  let upSlot0 :=
    if handoff then
      MovingAverageSlot.smma ((SmoothedMovingAverage.init r.period).update r.up.average)
    else r.up
  let downSlot0 :=
    if handoff then
      MovingAverageSlot.smma ((SmoothedMovingAverage.init r.period).update r.down.average)
    else r.down
  let isaccurate := if handoff then true else r.isaccurate
  let upSlot := upSlot0.update up
  let downSlot := downSlot0.update down
  let rs :=
    if downSlot.average > 0 then upSlot.average / downSlot.average else r.rs
  let rsi :=
    if downSlot.average > 0 then 100 - 100 / (1 + upSlot.average / downSlot.average)
    else (100 : ℚ)
  { r with lastPrice := some value, up := upSlot, down := downSlot
           isaccurate := isaccurate, rs := rs, rsi := rsi }

/-- `RelativeStrengthIndex.state`: classify `_rsi` against the thresholds. -/
def RelativeStrengthIndex.state (r : RelativeStrengthIndex) : OscillatorSignal :=
  if r.rsi ≥ r.overbought then .overbought
  else if r.rsi ≤ r.oversold then .oversold
  else .nothing

/-- Feed a whole price stream into a `RelativeStrengthIndex`. -/
def RelativeStrengthIndex.updateAll (r : RelativeStrengthIndex) (vs : List ℚ) :
    RelativeStrengthIndex :=
  vs.foldl RelativeStrengthIndex.update r

/-- The down-tracker's current average. -/
def RelativeStrengthIndex.downAverage (r : RelativeStrengthIndex) : ℚ :=
  r.down.average

/-- `TradeSignal` (indicators.py). -/
inductive TradeSignal where
  | buy
  | sell
  | hold
deriving DecidableEq

/--
The `MovingAverage` capability a `MovingAverageCrossover` requires of its two
slots: an `update` and an `average`, over an arbitrary state type (the source
accepts any `MovingAverage` subclass instance).
-/
structure MovingAverageImpl (σ : Type) where
  update : σ → ℚ → σ
  average : σ → ℚ

/--
`MovingAverageCrossover` (indicators.py).  Fields mirror `short`, `long`,
`_signal` (initially hold), `_freshSignal` (initially false), `invertedSignal`.
-/
structure MovingAverageCrossover (σ τ : Type) where
  short : σ
  long : τ
  signal : TradeSignal
  freshSignal : Bool
  invertedSignal : Bool

/-- `MovingAverageCrossover.__init__(short, long, invertSignal=False)`. -/
def MovingAverageCrossover.init {σ τ : Type} (s : σ) (l : τ) (invertSignal : Bool) :
    MovingAverageCrossover σ τ :=
  { short := s, long := l, signal := .hold, freshSignal := false
    invertedSignal := invertSignal }

/--
`MovingAverageCrossover.update(value)`: update both averages; the fresh flag
defaults to stale; sell when `short.average < long.average` else buy, each
swapped under inversion; the flag is set exactly when the new signal differs
from the stored one.
-/
def MovingAverageCrossover.update {σ τ : Type} (MS : MovingAverageImpl σ)
    (ML : MovingAverageImpl τ) (c : MovingAverageCrossover σ τ) (value : ℚ) :
    MovingAverageCrossover σ τ :=
  let short := MS.update c.short value
  let long := ML.update c.long value
  let signal :=
    if MS.average short < ML.average long then
      if c.invertedSignal then TradeSignal.buy else TradeSignal.sell
    else
      if c.invertedSignal then TradeSignal.sell else TradeSignal.buy
  { short := short, long := long, signal := signal
    freshSignal := decide (c.signal ≠ signal), invertedSignal := c.invertedSignal }

/-- `MovingAverageCrossover.strictSignal`: the signal when fresh, else hold. -/
def MovingAverageCrossover.strictSignal {σ τ : Type} (c : MovingAverageCrossover σ τ) :
    TradeSignal :=
  if c.freshSignal then c.signal else .hold

/-- Feed a whole price stream into a `MovingAverageCrossover`. -/
def MovingAverageCrossover.updateAll {σ τ : Type} (MS : MovingAverageImpl σ)
    (ML : MovingAverageImpl τ) (c : MovingAverageCrossover σ τ) (vs : List ℚ) :
    MovingAverageCrossover σ τ :=
  vs.foldl (MovingAverageCrossover.update MS ML) c

/-- Python's `max` over an iterable: `none` on an empty one (Python raises there). -/
def pyMax : List ℚ → Option ℚ
  | [] => none
  | x :: xs => some (xs.foldl max x)

/-- Python's `min` over an iterable: `none` on an empty one (Python raises there). -/
def pyMin : List ℚ → Option ℚ
  | [] => none
  | x :: xs => some (xs.foldl min x)

/--
Python float division as the oscillators use it: a zero denominator yields no
finite rational (CPython raises `ZeroDivisionError` at the division), modelled
as `none`; the abnormal outcome is propagated to whatever consumes the quotient.
-/
def fdiv (a b : ℚ) : Option ℚ :=
  if b = 0 then none else some (a / b)

/--
`WilliamsPercentRange` (oscillators.py).  Fields mirror `_lookback`,
`_period`, `_percentRange` (a number, `Option`-valued here so the unguarded
zero-width division has an abnormal value to propagate into it), `_overbought`,
`_oversold`.
-/
structure WilliamsPercentRange where
  lookback : RollingQueue ℚ
  period : Nat
  percentRange : Option ℚ
  overbought : ℚ
  oversold : ℚ

/-- `WilliamsPercentRange.__init__(period, overbought, oversold)`. -/
def WilliamsPercentRange.init (period : Nat) (overbought oversold : ℚ) :
    WilliamsPercentRange :=
  { lookback := RollingQueue.init ℚ period, period := period, percentRange := some 0
    overbought := overbought, oversold := oversold }

/--
`WilliamsPercentRange.update(value)`: scan the lookback for its max and min and
divide — with no guard on the zero-width denominator.  (`max`/`min` of an
empty deque raise in Python; the fallthrough arm models only that the stored
range is not assigned then.)
-/
def WilliamsPercentRange.update (w : WilliamsPercentRange) (value : ℚ) :
    WilliamsPercentRange :=
  match pyMax w.lookback.data, pyMin w.lookback.data with
  | some highest, some lowest =>
      { w with percentRange := fdiv (highest - value) (highest - lowest) }
  | _, _ => w

/--
`StochasticOscillator` (oscillators.py).  Fields mirror `_lows`, `_highs`,
`_k` (`Option`-valued here, as for Williams %R), `_oversold`, `_overbought`.
-/
structure StochasticOscillator where
  lows : RollingQueue ℚ
  highs : RollingQueue ℚ
  k : Option ℚ
  oversold : ℚ
  overbought : ℚ

/-- `StochasticOscillator.__init__(period, oversold, overbought)`. -/
def StochasticOscillator.init (period : Nat) (oversold overbought : ℚ) :
    StochasticOscillator :=
  { lows := RollingQueue.init ℚ period, highs := RollingQueue.init ℚ period
    k := some 0, oversold := oversold, overbought := overbought }

/--
`StochasticOscillator.update(close, high, low)`: enqueue the day's low and
high, rescan both windows, and compute `((close - l) / (h - l)) * 100` — with
no guard on the zero-width denominator.
-/
def StochasticOscillator.update (s : StochasticOscillator) (close high low : ℚ) :
    StochasticOscillator :=
  let lows := (s.lows.enqueue low).2
  let highs := (s.highs.enqueue high).2
  match pyMin lows.data, pyMax highs.data with
  | some l, some h =>
      { s with lows := lows, highs := highs
               k := (fdiv (close - l) (h - l)).map (fun x => x * 100) }
  | _, _ => { s with lows := lows, highs := highs }

/--
The size/data bookkeeping invariant of a `RollingQueue`: the tracked `_size`
is the backing deque's length and never exceeds the capacity.
-/
def RollingQueue.WF {α : Type} (q : RollingQueue α) : Prop :=
  q.size = q.data.length ∧ q.size ≤ q.capacity

/-- A `SimpleMovingAverage` that has only ever been fed zeros: zero average, all-zero window. -/
def SimpleMovingAverage.ZeroState (s : SimpleMovingAverage) : Prop :=
  s.average = 0 ∧ ∀ x ∈ s.queue.data, x = 0

/--
A tracker slot that has only ever been fed zeros: an all-zero SMA, or an
SMMA whose `_average` is unset or exactly `0`.
-/
def MovingAverageSlot.ZeroState : MovingAverageSlot → Prop
  | .sma s => s.ZeroState
  | .smma e => e.averageOpt = none ∨ e.averageOpt = some 0

/-- The RSI's down-tracker has only ever observed zero losses. -/
def RelativeStrengthIndex.DownZero (r : RelativeStrengthIndex) : Prop :=
  r.down.ZeroState

/--
The simulation relation between a cleared `RunningStats` and a fresh one:
equal counts, accumulators equal as soon as the `n`-guards can expose them
(`oldMean`/`newMean`/`oldSum` once `n ≥ 1`, `newSum` once `n ≥ 2`).
-/
def RunningStats.Agrees (r t : RunningStats) : Prop :=
  r.n = t.n ∧
  (1 ≤ r.n → r.oldMean = t.oldMean ∧ r.newMean = t.newMean ∧ r.oldSum = t.oldSum) ∧
  (2 ≤ r.n → r.newSum = t.newSum)

/-! ## Theorems -/

theorem RollingQueue.capacity_enqueue {α : Type} (q : RollingQueue α) (v : α) :
    (q.enqueue v).2.capacity = q.capacity := by
  unfold RollingQueue.enqueue
  by_cases h : q.size = q.capacity <;> simp [h]

theorem RollingQueue.size_enqueue {α : Type} (q : RollingQueue α) (v : α) :
    (q.enqueue v).2.size = if q.size = q.capacity then q.size else q.size + 1 := by
  unfold RollingQueue.enqueue
  by_cases h : q.size = q.capacity <;> simp [h]

theorem RollingQueue.data_enqueue {α : Type} (q : RollingQueue α) (v : α) :
    (q.enqueue v).2.data =
      if q.size = q.capacity then q.data.tail ++ [v] else q.data ++ [v] := by
  unfold RollingQueue.enqueue
  by_cases h : q.size = q.capacity <;> simp [h]

theorem RollingQueue.fst_enqueue {α : Type} (q : RollingQueue α) (v : α) :
    (q.enqueue v).1 = if q.size = q.capacity then q.data.head? else none := by
  unfold RollingQueue.enqueue
  by_cases h : q.size = q.capacity <;> simp [h]

theorem RollingQueue.enqueueAll_init {α : Type} (C : Nat) (hC : 1 ≤ C) (vs : List α) :
    (RollingQueue.enqueueAll (RollingQueue.init α C) vs).capacity = C ∧
    (RollingQueue.enqueueAll (RollingQueue.init α C) vs).size = min vs.length C ∧
    (RollingQueue.enqueueAll (RollingQueue.init α C) vs).data = vs.drop (vs.length - C) := by
  induction vs using List.reverseRecOn with
  | nil => simp [RollingQueue.enqueueAll, RollingQueue.init]
  | append_singleton xs x ih =>
    obtain ⟨hcap, hsize, hdata⟩ := ih
    have hstep : RollingQueue.enqueueAll (RollingQueue.init α C) (xs ++ [x]) =
        ((RollingQueue.enqueueAll (RollingQueue.init α C) xs).enqueue x).2 := by
      simp [RollingQueue.enqueueAll]
    rw [hstep, RollingQueue.capacity_enqueue, RollingQueue.size_enqueue,
      RollingQueue.data_enqueue, hcap, hsize, hdata]
    simp only [List.length_append, List.length_cons, List.length_nil, Nat.zero_add]
    by_cases h : min xs.length C = C
    · simp only [if_pos h]
      refine ⟨trivial, by omega, ?_⟩
      rw [List.tail_drop]
      have h2 : xs.length - C + 1 = xs.length + 1 - C := by omega
      rw [h2, List.drop_append_of_le_length (by omega)]
    · simp only [if_neg h]
      refine ⟨trivial, by omega, ?_⟩
      have h0 : xs.length - C = 0 := by omega
      have h1 : xs.length + 1 - C = 0 := by omega
      rw [h0, h1, List.drop_zero, List.drop_zero]

theorem RollingQueue.Reachable.wf {α : Type} {C : Nat} {q : RollingQueue α}
    (h : RollingQueue.Reachable C q) (hC : 1 ≤ C) : q.WF ∧ q.capacity = C := by
  induction h with
  | init => exact ⟨⟨rfl, Nat.zero_le C⟩, rfl⟩
  | @enqueue q v _ ih =>
    obtain ⟨⟨hlen, hle⟩, hcap⟩ := ih
    refine ⟨⟨?_, ?_⟩, by rw [RollingQueue.capacity_enqueue]; exact hcap⟩
    · rw [RollingQueue.size_enqueue, RollingQueue.data_enqueue]
      by_cases hfull : q.size = q.capacity
      · rw [if_pos hfull, if_pos hfull]
        simp only [List.length_append, List.length_tail, List.length_cons, List.length_nil]
        omega
      · rw [if_neg hfull, if_neg hfull]
        simp only [List.length_append, List.length_cons, List.length_nil]
        omega
    · rw [RollingQueue.size_enqueue, RollingQueue.capacity_enqueue]
      by_cases hfull : q.size = q.capacity
      · rw [if_pos hfull]; exact hle
      · rw [if_neg hfull]; omega
  | @dequeue q q' x _ hdq ih =>
    obtain ⟨⟨hlen, hle⟩, hcap⟩ := ih
    unfold RollingQueue.dequeue at hdq
    split at hdq
    · exact absurd hdq (by simp)
    · split at hdq
      · exact absurd hdq (by simp)
      · rename_i hempty y ys hys
        injection hdq with h1
        have h3 : ({ q with size := q.size - 1, data := ys } : RollingQueue α) = q' :=
          congrArg Prod.snd h1
        subst h3
        rw [hys] at hlen
        simp only [List.length_cons] at hlen
        refine ⟨⟨?_, ?_⟩, hcap⟩
        · show q.size - 1 = ys.length
          omega
        · show q.size - 1 ≤ q.capacity
          omega

/--
Claim C6: a `RollingQueue(C)` is a bounded FIFO: after `C + k` enqueues the
size is exactly `C` and iterating yields exactly the last `C` inputs in
oldest-to-newest order; an individual enqueue at capacity returns the evicted
oldest element (which exists) and keeps the size, an enqueue below capacity
returns none and increments the size; and `size ≤ capacity` in every
reachable state.
-/
theorem rollingQueue_bounded_fifo (C k : Nat) (vs : List ℚ) (v : ℚ) (q : RollingQueue ℚ)
    (hC : 1 ≤ C) (hlen : vs.length = C + k) (hq : RollingQueue.Reachable C q) :
    (RollingQueue.enqueueAll (RollingQueue.init ℚ C) vs).size = C ∧
    (RollingQueue.enqueueAll (RollingQueue.init ℚ C) vs).data = vs.drop k ∧
    (q.atCapacity = true →
      (q.enqueue v).1 = q.data.head? ∧ q.data.head?.isSome = true ∧
      (q.enqueue v).2.size = q.size) ∧
    (q.atCapacity = false →
      (q.enqueue v).1 = none ∧ (q.enqueue v).2.size = q.size + 1) ∧
    q.size ≤ q.capacity := by
  obtain ⟨hcap, hsize, hdata⟩ := RollingQueue.enqueueAll_init C hC vs
  obtain ⟨⟨hqlen, hqle⟩, hqcap⟩ := hq.wf hC
  refine ⟨?_, ?_, ?_, ?_, hqle⟩
  · rw [hsize, hlen]; omega
  · rw [hdata, hlen]; congr 1; omega
  · intro hfull
    have hfull' : q.size = q.capacity := by
      simpa [RollingQueue.atCapacity] using hfull
    refine ⟨by rw [RollingQueue.fst_enqueue, if_pos hfull'], ?_,
      by rw [RollingQueue.size_enqueue, if_pos hfull']⟩
    cases hd : q.data with
    | nil => rw [hd] at hqlen; simp at hqlen; omega
    | cons y ys => simp [hd]
  · intro hnotfull
    have hfull' : ¬ q.size = q.capacity := by
      simpa [RollingQueue.atCapacity] using hnotfull
    exact ⟨by rw [RollingQueue.fst_enqueue, if_neg hfull'],
      by rw [RollingQueue.size_enqueue, if_neg hfull']⟩

/-- Witness for C6 at `C = 2`, `k = 1`, inputs `[1, 2, 3]`. -/
theorem rollingQueue_bounded_fifo_witness :
    (RollingQueue.enqueueAll (RollingQueue.init ℚ 2) [1, 2, 3]).size = 2 ∧
    (RollingQueue.enqueueAll (RollingQueue.init ℚ 2) [1, 2, 3]).data = [2, 3] := by
  have h := rollingQueue_bounded_fifo 2 1 [1, 2, 3] 0 (RollingQueue.init ℚ 2)
    (by decide) (by decide) RollingQueue.Reachable.init
  exact ⟨h.1, h.2.1⟩

/--
Claim C1 (code evidence): the spec and `test_movingaverage.py` describe an
`ExponentialMovingAverage` that warms up through an internal
`SimpleMovingAverage(period)`, but the code in movingaverage.py applies the
recursive update from the very first sample.  Feeding `EMA(9, 2.0)` the two
samples `22.81, 23.09` (the prefix of the test's documented data set), the
code's second average is `22.866 = 11433/500`, whereas the warm-up behaviour
the claim describes — the `SimpleMovingAverage(9)` average of the same prefix —
is `20557/900 ≈ 22.84111`.  The test's expected second value `22.84111` brackets
the SMA value and is more than `1/100` away from what the code computes, far
beyond the test's 7-place tolerance: the code contradicts its own test suite.
-/
theorem ema_no_sma_warmup_failing_input :
    (ExponentialMovingAverage.updateAll (ExponentialMovingAverage.init 9 2)
        [2281/100, 2309/100]).average = 11433/500 ∧
    (SimpleMovingAverage.updateAll (SimpleMovingAverage.init 9)
        [2281/100, 2309/100]).average = 20557/900 ∧
    (11433 : ℚ)/500 ≠ 20557/900 ∧
    ((2284111 : ℚ)/100000 < 20557/900 ∧ (20557 : ℚ)/900 < 2284112/100000) ∧
    (11433 : ℚ)/500 - 2284111/100000 > 1/100 := by
  refine ⟨?_, ?_, by norm_num, ⟨by norm_num, by norm_num⟩, by norm_num⟩
  · norm_num [ExponentialMovingAverage.updateAll, ExponentialMovingAverage.update,
      ExponentialMovingAverage.init, ExponentialMovingAverage.average]
  · norm_num [SimpleMovingAverage.updateAll, SimpleMovingAverage.update,
      SimpleMovingAverage.init, RollingQueue.init, RollingQueue.isEmpty,
      RollingQueue.peek, RollingQueue.enqueue]

/--
Claim C5: `RollingStats(5)` pushed `5, 6, 7, 8, 9` ends accurate with mean `7`
and variance `5/2`; one further push of `4` rolls the window to mean `34/5`
and variance `37/10` — exact rational arithmetic.
-/
theorem rollingStats_window_example :
    (RollingStats.pushAll (RollingStats.init 5) [5, 6, 7, 8, 9]).isaccurate = true ∧
    (RollingStats.pushAll (RollingStats.init 5) [5, 6, 7, 8, 9]).mean = 7 ∧
    (RollingStats.pushAll (RollingStats.init 5) [5, 6, 7, 8, 9]).variance = 5/2 ∧
    ((RollingStats.pushAll (RollingStats.init 5) [5, 6, 7, 8, 9]).push 4).mean = 34/5 ∧
    ((RollingStats.pushAll (RollingStats.init 5) [5, 6, 7, 8, 9]).push 4).variance = 37/10 := by
  refine ⟨?_, ?_, ?_, ?_, ?_⟩ <;>
    norm_num [RollingStats.pushAll, RollingStats.push, RollingStats.init, RollingStats.mean,
      RollingStats.variance, RollingStats.isaccurate, RollingQueue.init, RollingQueue.isEmpty,
      RollingQueue.peek, RollingQueue.enqueue, RollingQueue.atCapacity]

theorem SimpleMovingAverage.queue_updateAll (vs : List ℚ) :
    ∀ (s : SimpleMovingAverage), s.queue.size ≤ s.queue.capacity →
      (s.updateAll vs).queue.capacity = s.queue.capacity ∧
      (s.updateAll vs).queue.size = min (s.queue.size + vs.length) s.queue.capacity := by
  induction vs with
  | nil =>
    intro s hs
    refine ⟨rfl, ?_⟩
    show s.queue.size = min (s.queue.size + ([] : List ℚ).length) s.queue.capacity
    simp only [List.length_nil]
    omega
  | cons v vs ih =>
    intro s hs
    have hq : (s.update v).queue = (s.queue.enqueue v).2 := rfl
    have hcap : (s.update v).queue.capacity = s.queue.capacity := by
      rw [hq, RollingQueue.capacity_enqueue]
    have hsize : (s.update v).queue.size =
        if s.queue.size = s.queue.capacity then s.queue.size else s.queue.size + 1 := by
      rw [hq, RollingQueue.size_enqueue]
    have hle : (s.update v).queue.size ≤ (s.update v).queue.capacity := by
      rw [hcap, hsize]; split <;> omega
    obtain ⟨h1, h2⟩ := ih (s.update v) hle
    have hstep : s.updateAll (v :: vs) = (s.update v).updateAll vs := rfl
    rw [hstep, h1, h2, hcap, hsize]
    refine ⟨rfl, ?_⟩
    simp only [List.length_cons]
    split <;> omega

/--
Claim C3: a `SimpleMovingAverage` exposes `isaccurate` (modelled from the
spec, see `SimpleMovingAverage.isaccurate`), and after feeding any input
stream it reads true exactly when the window has received at least `period`
values — i.e. from the `period`-th update onward, false earlier.
-/
theorem sma_isaccurate_iff_window_filled (period : Nat) (vs : List ℚ) (hp : 1 ≤ period) :
    (((SimpleMovingAverage.init period).updateAll vs).isaccurate = true) ↔
      period ≤ vs.length := by
  obtain ⟨h1, h2⟩ := SimpleMovingAverage.queue_updateAll vs (SimpleMovingAverage.init period)
    (by simp [SimpleMovingAverage.init, RollingQueue.init])
  unfold SimpleMovingAverage.isaccurate RollingQueue.atCapacity
  rw [h1, h2]
  simp only [SimpleMovingAverage.init, RollingQueue.init, beq_iff_eq]
  omega

/-- Witness for C3 at `period = 2` and the stream `[1, 2]`. -/
theorem sma_isaccurate_iff_window_filled_witness :
    ((((SimpleMovingAverage.init 2).updateAll [1, 2]).isaccurate = true) ↔
      2 ≤ ([1, 2] : List ℚ).length) :=
  sma_isaccurate_iff_window_filled 2 [1, 2] (by decide)

theorem ema_fixed_multiplier_recursion (p : Nat) (xs : List ℚ) :
    ∀ (e : ExponentialMovingAverage) (a : ℚ), e.averageOpt = some a →
      e.multiplier = 1 / (p : ℚ) →
      (e.updateAll xs).average = wilderRecursion p a xs := by
  induction xs with
  | nil =>
    intro e a ha hm
    simp [ExponentialMovingAverage.updateAll, ExponentialMovingAverage.average, ha,
      wilderRecursion]
  | cons x xs ih =>
    intro e a ha hm
    have hstep : e.updateAll (x :: xs) = (e.update x).updateAll xs := rfl
    have hup : (e.update x).averageOpt = some ((x - a) * (1 / (p : ℚ)) + a) := by
      simp [ExponentialMovingAverage.update, ha, hm]
    have hmul : (e.update x).multiplier = 1 / (p : ℚ) := hm
    rw [hstep, ih (e.update x) _ hup hmul]
    have hx : (x - a) * (1 / (p : ℚ)) + a = a + (x - a) / (p : ℚ) := by ring
    rw [hx]
    rfl

/--
Claim C2: a `SmoothedMovingAverage(period)` (modelled from the spec, see
`SmoothedMovingAverage.init`) is the `ExponentialMovingAverage` machinery with
the multiplier overridden to `1/period` and smoothing `1`: it seeds with the
first value and thereafter each update performs
`average += (value - average) / period` — Wilder's smoothing.
-/
theorem smoothedMovingAverage_wilder (p : Nat) (v : ℚ) (vs : List ℚ) (hp : 1 ≤ p) :
    ((SmoothedMovingAverage.init p).updateAll (v :: vs)).average = wilderRecursion p v vs ∧
    (SmoothedMovingAverage.init p).multiplier = 1 / (p : ℚ) ∧
    (SmoothedMovingAverage.init p).smoothing = 1 := by
  refine ⟨?_, rfl, rfl⟩
  have hstep : (SmoothedMovingAverage.init p).updateAll (v :: vs) =
      ((SmoothedMovingAverage.init p).update v).updateAll vs := rfl
  have h1 : ((SmoothedMovingAverage.init p).update v).averageOpt = some v := by
    show some ((v - v) * (1 / (p : ℚ)) + v) = some v
    norm_num
  rw [hstep]
  exact ema_fixed_multiplier_recursion p vs _ v h1 rfl

/-- Witness for C2 at `period = 2` and the stream `[1, 3]`. -/
theorem smoothedMovingAverage_wilder_witness :
    ((SmoothedMovingAverage.init 2).updateAll [1, 3]).average = wilderRecursion 2 1 [3] ∧
    (SmoothedMovingAverage.init 2).multiplier = 1 / (2 : ℚ) ∧
    (SmoothedMovingAverage.init 2).smoothing = 1 :=
  smoothedMovingAverage_wilder 2 1 [3] (by decide)

theorem RunningStats.agrees_push {r t : RunningStats} (h : r.Agrees t) (v : ℚ) :
    (r.push v).Agrees (t.push v) := by
  obtain ⟨hn, h1, h2⟩ := h
  by_cases h0 : t.n = 0
  · have hr : r.n = 0 := by omega
    simp only [RunningStats.push, hr, h0]
    norm_num
    refine ⟨rfl, fun _ => ⟨rfl, rfl, rfl⟩, fun hle => ?_⟩
    exact absurd (show (2 : Nat) ≤ 1 from hle) (by omega)
  · have hr1 : 1 ≤ r.n := by omega
    obtain ⟨hom, hnm, hos⟩ := h1 hr1
    simp only [RunningStats.push, hn, hom, hos]
    rw [if_neg (by omega), if_neg (by omega)]
    refine ⟨rfl, fun _ => ⟨rfl, rfl, rfl⟩, fun _ => rfl⟩

theorem RunningStats.agrees_pushAll {r t : RunningStats} (h : r.Agrees t) (vs : List ℚ) :
    (r.pushAll vs).Agrees (t.pushAll vs) := by
  induction vs generalizing r t with
  | nil => exact h
  | cons v vs ih => exact ih (RunningStats.agrees_push h v)

theorem RunningStats.agrees_clear_init (r : RunningStats) :
    (r.clear).Agrees RunningStats.init := by
  have hn : (r.clear).n = 0 := rfl
  exact ⟨rfl, fun h => absurd h (by omega), fun h => absurd h (by omega)⟩

theorem RunningStats.agrees_mean_variance {r t : RunningStats} (h : r.Agrees t) :
    r.mean = t.mean ∧ r.variance = t.variance := by
  obtain ⟨hn, h1, h2⟩ := h
  constructor
  · unfold RunningStats.mean
    rw [hn]
    by_cases h0 : 0 < t.n
    · rw [if_pos h0, if_pos h0]
      exact (h1 (by omega)).2.1
    · rw [if_neg h0, if_neg h0]
  · unfold RunningStats.variance
    rw [hn]
    by_cases h0 : 1 < t.n
    · rw [if_pos h0, if_pos h0, h2 (by omega)]
    · rw [if_neg h0, if_neg h0]

/--
Claim C9: `RunningStats.clear()` resets only the count, yet the cleared
instance is observationally equivalent to a fresh one: for every stream of
subsequent pushes the readable mean, variance and standard deviation
(`sqrt` of the variance) coincide with those of a new instance fed the same
values — the stale accumulators are masked by the `n`-guards and overwritten
on the first push.
-/
theorem runningStats_clear_observationally_fresh (r : RunningStats) (vs : List ℚ) :
    ((r.clear).pushAll vs).mean = (RunningStats.init.pushAll vs).mean ∧
    ((r.clear).pushAll vs).variance = (RunningStats.init.pushAll vs).variance ∧
    Real.sqrt ((((r.clear).pushAll vs).variance : ℚ) : ℝ) =
      Real.sqrt (((RunningStats.init.pushAll vs).variance : ℚ) : ℝ) := by
  obtain ⟨hm, hv⟩ := RunningStats.agrees_mean_variance
    (RunningStats.agrees_pushAll (RunningStats.agrees_clear_init r) vs)
  exact ⟨hm, hv, by rw [hv]⟩

/--
Claim C10: the source's default arguments give `overbought = 30`, equal to the
default `oversold = 30` (the docstring's "Default 70" notwithstanding), so for
any RSI state carrying these thresholds `state` classifies `rsi ≥ 30` (30
included) as overbought and `rsi < 30` as oversold — it never returns
`OscillatorSignal.nothing`.
-/
theorem rsi_default_thresholds_state (r : RelativeStrengthIndex)
    (hob : r.overbought = 30) (hos : r.oversold = 30) :
    RelativeStrengthIndex.initDefault.overbought = 30 ∧
    RelativeStrengthIndex.initDefault.oversold = 30 ∧
    r.state = (if 30 ≤ r.rsi then OscillatorSignal.overbought else OscillatorSignal.oversold) ∧
    r.state ≠ OscillatorSignal.nothing := by
  have hstate : r.state =
      (if 30 ≤ r.rsi then OscillatorSignal.overbought else OscillatorSignal.oversold) := by
    unfold RelativeStrengthIndex.state
    rw [hob, hos]
    by_cases h : 30 ≤ r.rsi
    · rw [if_pos h, if_pos h]
    · rw [if_neg h, if_neg h, if_pos (le_of_lt (not_le.mp h))]
  refine ⟨rfl, rfl, hstate, ?_⟩
  rw [hstate]
  by_cases h : 30 ≤ r.rsi
  · rw [if_pos h]
    exact fun hc => OscillatorSignal.noConfusion hc
  · rw [if_neg h]
    exact fun hc => OscillatorSignal.noConfusion hc

/-- Witness for C10 at the default-constructed instance itself. -/
theorem rsi_default_thresholds_state_witness :
    RelativeStrengthIndex.initDefault.overbought = 30 ∧
    RelativeStrengthIndex.initDefault.oversold = 30 ∧
    RelativeStrengthIndex.initDefault.state =
      (if 30 ≤ RelativeStrengthIndex.initDefault.rsi then OscillatorSignal.overbought
        else OscillatorSignal.oversold) ∧
    RelativeStrengthIndex.initDefault.state ≠ OscillatorSignal.nothing :=
  rsi_default_thresholds_state RelativeStrengthIndex.initDefault rfl rfl

theorem MovingAverageCrossover.invertedSignal_updateAll {σ τ : Type}
    (MS : MovingAverageImpl σ) (ML : MovingAverageImpl τ)
    (c : MovingAverageCrossover σ τ) (vs : List ℚ) :
    (MovingAverageCrossover.updateAll MS ML c vs).invertedSignal = c.invertedSignal := by
  induction vs generalizing c with
  | nil => rfl
  | cons v vs ih => exact ih (MovingAverageCrossover.update MS ML c v)

theorem crossover_update_step {σ τ : Type} (MS : MovingAverageImpl σ)
    (ML : MovingAverageImpl τ) (c : MovingAverageCrossover σ τ) (v : ℚ) :
    ((MovingAverageCrossover.update MS ML c v).signal =
      if MS.average (MS.update c.short v) < ML.average (ML.update c.long v) then
        (if c.invertedSignal then TradeSignal.buy else TradeSignal.sell)
      else (if c.invertedSignal then TradeSignal.sell else TradeSignal.buy)) ∧
    (MovingAverageCrossover.update MS ML c v).signal ≠ TradeSignal.hold ∧
    ((MovingAverageCrossover.update MS ML c v).freshSignal = true ↔
      (MovingAverageCrossover.update MS ML c v).signal ≠ c.signal) ∧
    ((MovingAverageCrossover.update MS ML c v).strictSignal = TradeSignal.hold ↔
      (MovingAverageCrossover.update MS ML c v).signal = c.signal) := by
  have hsig : (MovingAverageCrossover.update MS ML c v).signal =
      if MS.average (MS.update c.short v) < ML.average (ML.update c.long v) then
        (if c.invertedSignal then TradeSignal.buy else TradeSignal.sell)
      else (if c.invertedSignal then TradeSignal.sell else TradeSignal.buy) := rfl
  have hhold : (MovingAverageCrossover.update MS ML c v).signal ≠ TradeSignal.hold := by
    rw [hsig]
    by_cases hA : MS.average (MS.update c.short v) < ML.average (ML.update c.long v) <;>
      by_cases hI : c.invertedSignal <;> simp [hA, hI]
  have hfresh : (MovingAverageCrossover.update MS ML c v).freshSignal =
      decide (c.signal ≠ (MovingAverageCrossover.update MS ML c v).signal) := rfl
  refine ⟨hsig, hhold, ?_, ?_⟩
  · rw [hfresh]
    simp [ne_comm]
  · unfold MovingAverageCrossover.strictSignal
    rw [hfresh]
    by_cases he : c.signal = (MovingAverageCrossover.update MS ML c v).signal
    · simp [he]
    · simp [Ne.symm he, hhold]
      exact he

/--
Claim C8: after any sequence of updates, one more `update` of a
`MovingAverageCrossover` emits sell when the short average is below the long
average and buy otherwise, swapped under inversion and never hold; the
freshness flag, read through `strictSignal`, is true (`strictSignal ≠ hold`)
exactly when this update's signal differs from the signal after the
immediately preceding update (the initial signal being hold).
-/
theorem crossover_signal_edge_trigger {σ τ : Type} (MS : MovingAverageImpl σ)
    (ML : MovingAverageImpl τ) (s0 : σ) (l0 : τ) (inv : Bool) (vs : List ℚ) (v : ℚ) :
    ((MovingAverageCrossover.update MS ML
        (MovingAverageCrossover.updateAll MS ML (MovingAverageCrossover.init s0 l0 inv) vs) v).signal =
      if MS.average (MS.update
            (MovingAverageCrossover.updateAll MS ML (MovingAverageCrossover.init s0 l0 inv) vs).short v) <
          ML.average (ML.update
            (MovingAverageCrossover.updateAll MS ML (MovingAverageCrossover.init s0 l0 inv) vs).long v) then
        (if inv then TradeSignal.buy else TradeSignal.sell)
      else (if inv then TradeSignal.sell else TradeSignal.buy)) ∧
    (MovingAverageCrossover.update MS ML
        (MovingAverageCrossover.updateAll MS ML (MovingAverageCrossover.init s0 l0 inv) vs) v).signal ≠
      TradeSignal.hold ∧
    ((MovingAverageCrossover.update MS ML
        (MovingAverageCrossover.updateAll MS ML (MovingAverageCrossover.init s0 l0 inv) vs) v).freshSignal = true ↔
      (MovingAverageCrossover.update MS ML
        (MovingAverageCrossover.updateAll MS ML (MovingAverageCrossover.init s0 l0 inv) vs) v).signal ≠
        (MovingAverageCrossover.updateAll MS ML (MovingAverageCrossover.init s0 l0 inv) vs).signal) ∧
    ((MovingAverageCrossover.update MS ML
        (MovingAverageCrossover.updateAll MS ML (MovingAverageCrossover.init s0 l0 inv) vs) v).strictSignal =
        TradeSignal.hold ↔
      (MovingAverageCrossover.update MS ML
        (MovingAverageCrossover.updateAll MS ML (MovingAverageCrossover.init s0 l0 inv) vs) v).signal =
        (MovingAverageCrossover.updateAll MS ML (MovingAverageCrossover.init s0 l0 inv) vs).signal) := by
  obtain ⟨h1, h2, h3, h4⟩ := crossover_update_step MS ML
    (MovingAverageCrossover.updateAll MS ML (MovingAverageCrossover.init s0 l0 inv) vs) v
  rw [MovingAverageCrossover.invertedSignal_updateAll MS ML (MovingAverageCrossover.init s0 l0 inv) vs]
    at h1
  exact ⟨h1, h2, h3, h4⟩

theorem foldl_max_const (c : ℚ) : ∀ (xs : List ℚ) (acc : ℚ), acc = c →
    (∀ x ∈ xs, x = c) → xs.foldl max acc = c := by
  intro xs
  induction xs with
  | nil => intro acc hacc _; exact hacc
  | cons x xs ih =>
    intro acc hacc hmem
    have hx : x = c := hmem x (List.mem_cons_self x xs)
    refine ih (max acc x) ?_ (fun y hy => hmem y (List.mem_cons_of_mem x hy))
    rw [hacc, hx, max_self]

theorem foldl_min_const (c : ℚ) : ∀ (xs : List ℚ) (acc : ℚ), acc = c →
    (∀ x ∈ xs, x = c) → xs.foldl min acc = c := by
  intro xs
  induction xs with
  | nil => intro acc hacc _; exact hacc
  | cons x xs ih =>
    intro acc hacc hmem
    have hx : x = c := hmem x (List.mem_cons_self x xs)
    refine ih (min acc x) ?_ (fun y hy => hmem y (List.mem_cons_of_mem x hy))
    rw [hacc, hx, min_self]

theorem pyMax_const (c : ℚ) (l : List ℚ) (hne : l ≠ []) (h : ∀ x ∈ l, x = c) :
    pyMax l = some c := by
  cases l with
  | nil => exact absurd rfl hne
  | cons x xs =>
    show some (xs.foldl max x) = some c
    rw [foldl_max_const c xs x (h x (List.mem_cons_self x xs))
      (fun y hy => h y (List.mem_cons_of_mem x hy))]

theorem pyMin_const (c : ℚ) (l : List ℚ) (hne : l ≠ []) (h : ∀ x ∈ l, x = c) :
    pyMin l = some c := by
  cases l with
  | nil => exact absurd rfl hne
  | cons x xs =>
    show some (xs.foldl min x) = some c
    rw [foldl_min_const c xs x (h x (List.mem_cons_self x xs))
      (fun y hy => h y (List.mem_cons_of_mem x hy))]

theorem enqueue_data_all_const {α : Type} (q : RollingQueue α) (v c : α)
    (hq : ∀ x ∈ q.data, x = c) (hv : v = c) :
    (∀ x ∈ (q.enqueue v).2.data, x = c) ∧ (q.enqueue v).2.data ≠ [] := by
  rw [RollingQueue.data_enqueue]
  constructor
  · intro x hx
    split at hx
    · rcases List.mem_append.mp hx with h | h
      · exact hq x (List.mem_of_mem_tail h)
      · rw [List.mem_singleton.mp h]; exact hv
    · rcases List.mem_append.mp hx with h | h
      · exact hq x h
      · rw [List.mem_singleton.mp h]; exact hv
  · split <;> simp

/--
Claim C7: with a flat lookback window (every stored high equal to every stored
low), `WilliamsPercentRange.update` and `StochasticOscillator.update` perform
the division anyway — nothing guards the zero-width denominator — and the
abnormal (non-finite) quotient is propagated into the reported
`percentRange` / `percentk` value, modelled as `none`.
-/
theorem flat_window_unguarded_division (w : WilliamsPercentRange) (c value : ℚ)
    (s : StochasticOscillator) (close high low : ℚ)
    (hw0 : w.lookback.data ≠ []) (hwflat : ∀ x ∈ w.lookback.data, x = c)
    (hsl : ∀ x ∈ s.lows.data, x = c) (hsh : ∀ x ∈ s.highs.data, x = c)
    (hhigh : high = c) (hlow : low = c) :
    (w.update value).percentRange = none ∧ (s.update close high low).k = none := by
  constructor
  · unfold WilliamsPercentRange.update
    rw [pyMax_const c w.lookback.data hw0 hwflat, pyMin_const c w.lookback.data hw0 hwflat]
    show fdiv (c - value) (c - c) = none
    simp [fdiv]
  · unfold StochasticOscillator.update
    dsimp only
    obtain ⟨hl, hlne⟩ := enqueue_data_all_const s.lows low c hsl hlow
    obtain ⟨hh, hhne⟩ := enqueue_data_all_const s.highs high c hsh hhigh
    rw [pyMin_const c _ hlne hl, pyMax_const c _ hhne hh]
    show Option.map (fun x => x * 100) (fdiv (close - c) (c - c)) = none
    simp [fdiv]

/--
Witness for C7: a Williams %R whose populated lookback is the flat window
`[5]`, and a fresh Stochastic fed the flat sample `high = low = 5`.
-/
theorem flat_window_unguarded_division_witness :
    (WilliamsPercentRange.update
        { lookback := { capacity := 14, size := 1, data := [5] }, period := 14
          percentRange := some 0, overbought := -20, oversold := -80 } 3).percentRange = none ∧
    (StochasticOscillator.update (StochasticOscillator.init 14 20 80) 1 5 5).k = none :=
  flat_window_unguarded_division
    { lookback := { capacity := 14, size := 1, data := [5] }, period := 14
      percentRange := some 0, overbought := -20, oversold := -80 } 5 3
    (StochasticOscillator.init 14 20 80) 1 5 5
    (by simp) (by simp) (by simp [StochasticOscillator.init, RollingQueue.init])
    (by simp [StochasticOscillator.init, RollingQueue.init]) rfl rfl

theorem getD_peek_zero (q : RollingQueue ℚ) (h : ∀ x ∈ q.data, x = 0) :
    (q.peek).getD 0 = 0 := by
  unfold RollingQueue.peek
  split
  · rfl
  · cases hd : q.data with
    | nil => rfl
    | cons y ys =>
      simp only [List.head?_cons, Option.getD_some]
      exact h y (by rw [hd]; exact List.mem_cons_self y ys)

theorem SimpleMovingAverage.zeroState_update {s : SimpleMovingAverage}
    (h : s.ZeroState) : (s.update 0).ZeroState := by
  obtain ⟨havg, hdata⟩ := h
  have hfront : (if s.queue.isEmpty then (0 : ℚ) else (s.queue.peek).getD 0) = 0 := by
    split
    · rfl
    · exact getD_peek_zero s.queue hdata
  have havg0 : (if s.queue.isEmpty then (0 : ℚ) else s.average) = 0 := by
    split
    · rfl
    · exact havg
  constructor
  · show (if s.queue.isEmpty then (0 : ℚ) else s.average) -
        (if s.queue.isEmpty then (0 : ℚ) else (s.queue.peek).getD 0) * s.recip_capacity +
        0 * s.recip_capacity = 0
    rw [hfront, havg0]
    ring
  · exact (enqueue_data_all_const s.queue 0 0 hdata rfl).1

theorem ExponentialMovingAverage.zeroOpt_update {e : ExponentialMovingAverage}
    (h : e.averageOpt = none ∨ e.averageOpt = some 0) :
    (e.update 0).averageOpt = some 0 := by
  have ha : e.averageOpt.getD 0 = 0 := by
    rcases h with h | h <;> rw [h] <;> rfl
  show some ((0 - e.averageOpt.getD 0) * e.multiplier + e.averageOpt.getD 0) = some 0
  rw [ha]
  norm_num

theorem MovingAverageSlot.zeroState_update_slot {t : MovingAverageSlot} (h : t.ZeroState) :
    (t.update 0).ZeroState := by
  cases t with
  | sma s => exact SimpleMovingAverage.zeroState_update h
  | smma e => exact Or.inr (ExponentialMovingAverage.zeroOpt_update h)

theorem MovingAverageSlot.zeroState_average {t : MovingAverageSlot} (h : t.ZeroState) :
    t.average = 0 := by
  cases t with
  | sma s => exact h.1
  | smma e =>
    rcases h with h | h <;> show e.averageOpt.getD 0 = 0 <;> rw [h] <;> rfl

theorem rsi_update_step (r : RelativeStrengthIndex) (v : ℚ) (hz : r.DownZero)
    (hlast : ∀ p, r.lastPrice = some p → p ≤ v) :
    (r.update v).DownZero ∧ (r.update v).lastPrice = some v ∧ (r.update v).rsi = 100 := by
  have hdown : (if v < r.lastPrice.getD v then r.lastPrice.getD v - v else 0) = (0 : ℚ) := by
    split
    · rename_i hlt
      exfalso
      cases hp : r.lastPrice with
      | none =>
        rw [hp] at hlt
        exact absurd hlt (lt_irrefl v)
      | some p =>
        rw [hp] at hlt
        exact absurd hlt (not_lt.mpr (hlast p hp))
    · rfl
  have hslot0 : MovingAverageSlot.ZeroState
      (if !r.isaccurate && r.up.isaccurate then
        MovingAverageSlot.smma ((SmoothedMovingAverage.init r.period).update r.down.average)
      else r.down) := by
    split
    · rw [MovingAverageSlot.zeroState_average hz]
      exact Or.inr (ExponentialMovingAverage.zeroOpt_update (Or.inl rfl))
    · exact hz
  have hde : (r.update v).down =
      (if !r.isaccurate && r.up.isaccurate then
        MovingAverageSlot.smma ((SmoothedMovingAverage.init r.period).update r.down.average)
      else r.down).update (if v < r.lastPrice.getD v then r.lastPrice.getD v - v else 0) := rfl
  have hdz : (r.update v).DownZero := by
    show (r.update v).down.ZeroState
    rw [hde, hdown]
    exact MovingAverageSlot.zeroState_update_slot hslot0
  refine ⟨hdz, rfl, ?_⟩
  have h0 : (r.update v).down.average = 0 := MovingAverageSlot.zeroState_average hdz
  have hrsi : (r.update v).rsi =
      if (r.update v).down.average > 0 then
        100 - 100 / (1 + (r.update v).up.average / (r.update v).down.average)
      else 100 := rfl
  rw [hrsi, h0]
  norm_num

theorem rsi_updateAll_chain (vs : List ℚ) :
    ∀ (r : RelativeStrengthIndex), r.DownZero →
      List.Chain' (· ≤ ·) (r.lastPrice.toList ++ vs) →
      (r.updateAll vs).DownZero ∧ (vs ≠ [] → (r.updateAll vs).rsi = 100) := by
  induction vs with
  | nil =>
    intro r hz _
    exact ⟨hz, fun h => absurd rfl h⟩
  | cons v rest ih =>
    intro r hz hch
    have hlast : ∀ p, r.lastPrice = some p → p ≤ v := by
      intro p hp
      rw [hp] at hch
      exact (List.chain'_cons.mp hch).1
    obtain ⟨hz', hlp', hrsi'⟩ := rsi_update_step r v hz hlast
    have hch' : List.Chain' (· ≤ ·) ((r.update v).lastPrice.toList ++ rest) := by
      rw [hlp']
      cases hp : r.lastPrice with
      | none => rw [hp] at hch; exact hch
      | some p => rw [hp] at hch; exact (List.chain'_cons.mp hch).2
    have hstep : r.updateAll (v :: rest) = (r.update v).updateAll rest := rfl
    obtain ⟨hzf, hrf⟩ := ih (r.update v) hz' hch'
    refine ⟨hstep ▸ hzf, fun _ => ?_⟩
    cases hrest : rest with
    | nil =>
      subst hrest
      rw [hstep]
      exact hrsi'
    | cons w ws =>
      rw [← hrest, hstep]
      exact hrf (by rw [hrest]; exact List.cons_ne_nil w ws)

/--
Claim C4: feeding a strictly increasing price stream that is at least
`period` long into a `RelativeStrengthIndex` yields `rsi = 100` exactly after
the final update; the down tracker's average is `0` after every prefix —
including across the warm-up handoff from `SimpleMovingAverage` to
`SmoothedMovingAverage` — so the division is skipped and the zero-loss special
case fires.
-/
theorem rsi_strictly_increasing_rsi_100 (period : Nat) (os ob : ℚ) (vs : List ℚ) (n : Nat)
    (hp : 1 ≤ period) (hchain : List.Chain' (· < ·) vs) (hlen : period ≤ vs.length) :
    ((RelativeStrengthIndex.init period os ob).updateAll vs).rsi = 100 ∧
    ((RelativeStrengthIndex.init period os ob).updateAll (vs.take n)).downAverage = 0 := by
  have hzinit : (RelativeStrengthIndex.init period os ob).DownZero :=
    ⟨rfl, fun x hx => absurd hx (List.not_mem_nil x)⟩
  have hle : List.Chain' (· ≤ ·) vs := hchain.imp (fun a b h => le_of_lt h)
  constructor
  · have h := rsi_updateAll_chain vs (RelativeStrengthIndex.init period os ob) hzinit
      (by simpa using hle)
    refine h.2 (fun hnil => ?_)
    rw [hnil] at hlen
    simp at hlen
    omega
  · have htake : List.Chain' (· ≤ ·) (vs.take n) := hle.take n
    have h := rsi_updateAll_chain (vs.take n) (RelativeStrengthIndex.init period os ob) hzinit
      (by simpa using htake)
    exact MovingAverageSlot.zeroState_average h.1

/-- Witness for C4 at `period = 1`, thresholds 30/30, the stream `[1, 2]`, prefix length 2. -/
theorem rsi_strictly_increasing_rsi_100_witness :
    ((RelativeStrengthIndex.init 1 30 30).updateAll [1, 2]).rsi = 100 ∧
    ((RelativeStrengthIndex.init 1 30 30).updateAll (([1, 2] : List ℚ).take 2)).downAverage = 0 :=
  rsi_strictly_increasing_rsi_100 1 30 30 [1, 2] 2 (by decide)
    (List.chain'_cons.mpr ⟨by norm_num, List.chain'_singleton 2⟩) (by decide)
